import Mathlib

/-
Shallow embedding of the development-plan generator (src/app.py).

Conventions of the embedding:
* a pandas cell that may be NaN is an `Option` value (`none` = NaN / missing);
* candidate scores are rationals (the source compares numeric scores, never
  performs float-specific arithmetic);
* the stable Python `sorted` is modelled by `List.insertionSort`, also stable;
* a pandas DataFrame is a header list plus a list of rows, a cell being reached
  through the index of its column header (a missing column is a KeyError,
  modelled with `Except.error`);
* `random.choice` is modelled by an arbitrary index supplied as an extra
  argument and reduced modulo the list length, so theorems quantify over
  every possible random draw;
* Python `str.strip` / `str.lower` are modelled on the character list of the
  string;
* the Streamlit per-candidate loop (app.py lines 200-220) is modelled by
  `processCandidates`, which threads the repository mapping explicitly so that
  the in-place mutation performed by `get_random_tips` (dropna with
  inplace=True) and the `.copy()` taken by the loop are both visible.
-/

namespace App

/-- Model of Python `str.strip`: drop whitespace from both ends. -/
def pyStrip (s : String) : String :=
  ⟨List.reverse ((List.reverse (s.data.dropWhile Char.isWhitespace)).dropWhile Char.isWhitespace)⟩

/-- Model of Python `str.lower`. -/
def pyLower (s : String) : String :=
  ⟨s.data.map Char.toLower⟩

/-- Normalization the source applies to competency names: `.strip().lower()`. -/
def normalize (s : String) : String :=
  pyLower (pyStrip s)

/-- Comparison used by `sorted(scores.items(), key=lambda item: item[1])`. -/
def scoreLE (a b : String × ℚ) : Prop :=
  a.2 ≤ b.2

instance : DecidableRel scoreLE :=
  fun a b => inferInstanceAs (Decidable (a.2 ≤ b.2))

instance : IsTotal (String × ℚ) scoreLE :=
  ⟨fun a b => le_total a.2 b.2⟩

instance : IsTrans (String × ℚ) scoreLE :=
  ⟨fun _ _ _ h1 h2 => le_trans h1 h2⟩

/-- Embedding of `{comp: row[comp] for comp in competencies if pd.notna(row[comp])}`
(app.py line 12): the (competency, score) pairs with a defined score, in
enumeration order of `competencies`. -/
def definedScores (row : String → Option ℚ) (competencies : List String) :
    List (String × ℚ) :=
  competencies.filterMap (fun comp => (row comp).map (fun v => (comp, v)))

/-- Embedding of `find_lowest_competencies` (app.py lines 10-18). -/
def find_lowest_competencies (row : String → Option ℚ) (competencies : List String) :
    Option String × Option String :=
  let sortedCompetencies := List.insertionSort scoreLE (definedScores row competencies)
  ((sortedCompetencies[0]?).map Prod.fst, (sortedCompetencies[1]?).map Prod.fst)

/-- A pandas DataFrame: column headers and rows of possibly-missing cells. -/
structure DataFrame where
  headers : List String
  rows : List (List (Option String))
  deriving DecidableEq, Repr

/-- Position of a column header, as pandas column lookup finds it. -/
def indexOfName (name : String) : List String → Option ℕ
  | [] => none
  | h :: hs => if h == name then some 0 else (indexOfName name hs).map (fun i => i + 1)

/-- Cell of a row at a column index (`none` when the cell is NaN). -/
def getCell (row : List (Option String)) (i : ℕ) : Option String :=
  row.getD i none

/-- Embedding of `repo_df.dropna(subset=[name], inplace=True)` (app.py line 23):
keeps the rows whose cell in the named column is defined, and also returns the
index of the column; a missing column is a KeyError. -/
def DataFrame.dropnaSubset (df : DataFrame) (name : String) :
    Except String (ℕ × DataFrame) :=
  match indexOfName name df.headers with
  | none => .error ("KeyError: " ++ name)
  | some i => .ok (i, ⟨df.headers, df.rows.filter (fun r => (getCell r i).isSome)⟩)

/-- Embedding of app.py lines 23-30: drop the rows with an undefined
competency name, filter the rows whose normalized competency name equals the
normalized target, and gather the two candidate tip lists (the non-missing
values of the two tip columns of the matching rows).  Returns the mutated
table together with the two lists. -/
def tipCandidates (repo_df : DataFrame) (competency : String) :
    Except String (DataFrame × List String × List String) :=
  match repo_df.dropnaSubset "Competency Name" with
  | .error e => .error e
  | .ok (ci, df) =>
    let compRows := df.rows.filter (fun r =>
      match getCell r ci with
      | some v => normalize v == normalize competency
      | none => false)
    match indexOfName "70% Development Tips" df.headers with
    | none => .error "KeyError: 70% Development Tips"
    | some i70 =>
      match indexOfName "20% Development Tips" df.headers with
      | none => .error "KeyError: 20% Development Tips"
      | some i20 =>
        .ok (df, compRows.filterMap (fun r => getCell r i70),
                 compRows.filterMap (fun r => getCell r i20))

/-- Model of `random.choice(tips) if tips else "N/A"` (app.py lines 32-33):
`r` is the random draw, reduced modulo the length of the list. -/
def pickTip (tips : List String) (r : ℕ) : String :=
  match tips with
  | [] => "N/A"
  | t :: ts => (t :: ts).getD (r % (t :: ts).length) "N/A"

/-- Embedding of `get_random_tips` (app.py lines 20-35).  The returned
DataFrame models the argument after the in-place `dropna`. -/
def get_random_tips (repo_df : DataFrame) (competency : String) (r70 r20 : ℕ) :
    Except String (DataFrame × String × String) :=
  match tipCandidates repo_df competency with
  | .error e => .error e
  | .ok (df, tips_70, tips_20) => .ok (df, pickTip tips_70 r70, pickTip tips_20 r20)

/-- Fixed competency set (app.py lines 194-197). -/
def COMPETENCIES : List String :=
  ["Manages Stakeholders", "Steers Change", "Leads People",
   "Drives Results", "Solves Challenges", "Thinks Strategically"]

/-- A row of the candidate file. -/
structure Candidate where
  name : String
  level : String
  scores : String → Option ℚ

/-- One entry of `final_results` (app.py lines 216-220). -/
structure PlanRecord where
  candidateName : String
  level : String
  lowest1 : String
  tip1_70 : String
  tip1_20 : String
  lowest2 : String
  tip2_70 : String
  tip2_20 : String
  deriving DecidableEq, Repr

/-- Lookup of `repos[level]` through the `level not in repos` test. -/
def lookupRepo (repos : List (String × DataFrame)) (level : String) : Option DataFrame :=
  (repos.find? (fun p => p.1 == level)).map Prod.snd

/-- Python truthiness test `not x` on an optional string: `None` and the empty
string are falsy (app.py line 209). -/
def isFalsy : Option String → Bool
  | none => true
  | some s => s == ""

/-- Warning emitted at app.py line 203. -/
def skipLevelWarning (c : Candidate) : String :=
  "Skipping candidate " ++ c.name ++ ": level " ++ c.level ++ " not found."

/-- Warning emitted at app.py line 210. -/
def skipScoresWarning (c : Candidate) : String :=
  "Skipping candidate " ++ c.name ++ ": could not determine two lowest competencies."

/-- Embedding of the per-candidate loop (app.py lines 200-220).  `rnd` is the
stream of random draws and `k` the position in the stream (four draws are
consumed per fully processed candidate).  The repository mapping is threaded
through and returned, modelling the heap: because the loop works on
`repos[level].copy()`, the mapping handed to the rest of the loop is the
unchanged `repos`, while the table mutated by the first `get_random_tips`
call (`df1`) is the one handed to the second call. -/
def processCandidates (rnd : ℕ → ℕ) (repos : List (String × DataFrame)) :
    ℕ → List Candidate →
    Except String (List (String × DataFrame) × List PlanRecord × List String)
  | _, [] => .ok (repos, [], [])
  | k, c :: cs =>
    match lookupRepo repos c.level with
    | none =>
      match processCandidates rnd repos k cs with
      | .error e => .error e
      | .ok (repos2, recs, warns) => .ok (repos2, recs, skipLevelWarning c :: warns)
    | some repo_df =>
      let lows := find_lowest_competencies c.scores COMPETENCIES
      if isFalsy lows.1 || isFalsy lows.2 then
        match processCandidates rnd repos k cs with
        | .error e => .error e
        | .ok (repos2, recs, warns) => .ok (repos2, recs, skipScoresWarning c :: warns)
      else
        match get_random_tips repo_df (lows.1.getD "") (rnd k) (rnd (k + 1)) with
        | .error e => .error e
        | .ok (df1, tips1) =>
          match get_random_tips df1 (lows.2.getD "") (rnd (k + 2)) (rnd (k + 3)) with
          | .error e => .error e
          | .ok (_, tips2) =>
            match processCandidates rnd repos (k + 4) cs with
            | .error e => .error e
            | .ok (repos2, recs, warns) =>
              .ok (repos2,
                { candidateName := c.name, level := c.level,
                  lowest1 := lows.1.getD "", tip1_70 := tips1.1, tip1_20 := tips1.2,
                  lowest2 := lows.2.getD "", tip2_70 := tips2.1, tip2_20 := tips2.2 } :: recs,
                warns)

/-- Comparison following the words of the spec for the stable sort: ascending
by score, ties broken by the original enumeration index. -/
def rankKeyLE (a b : ℕ × (String × ℚ)) : Prop :=
  a.2.2 < b.2.2 ∨ (a.2.2 = b.2.2 ∧ a.1 ≤ b.1)

instance : DecidableRel rankKeyLE :=
  fun a b => inferInstanceAs (Decidable (a.2.2 < b.2.2 ∨ (a.2.2 = b.2.2 ∧ a.1 ≤ b.1)))

/-- Ranking as the spec words it: enumerate the defined (competency, score)
pairs, sort ascending by score with ties broken by the enumeration index, and
take the names of the first two entries. -/
def specStableRank (row : String → Option ℚ) (competencies : List String) :
    Option String × Option String :=
  let sortedPairs :=
    (List.insertionSort rankKeyLE (definedScores row competencies).enum).map Prod.snd
  ((sortedPairs[0]?).map Prod.fst, (sortedPairs[1]?).map Prod.fst)

/-- Scores of the sample candidate John Doe (app.py lines 117-119), scaled by
ten so that every score is an integer rational. -/
def johnScores : String → Option ℚ := fun comp =>
  if comp == "Manages Stakeholders" then some 25
  else if comp == "Steers Change" then some 31
  else if comp == "Leads People" then some 18
  else if comp == "Drives Results" then some 45
  else if comp == "Solves Challenges" then some 21
  else if comp == "Thinks Strategically" then some 33
  else none

/-- Small repository table with exact headers, one row per competency. -/
def sampleRepo : DataFrame :=
  ⟨["Competency Name", "70% Development Tips", "20% Development Tips"],
   [[some "Leads People", some "A", some "X"],
    [some "Manages Stakeholders", some "C", some "Z"]]⟩

/-- Candidate with exactly two defined scores. -/
def simpleScores : String → Option ℚ := fun comp =>
  if comp == "Leads People" then some 18
  else if comp == "Manages Stakeholders" then some 25
  else none

def johnCand : Candidate :=
  ⟨"John Doe", "Apply", simpleScores⟩

def exploreCand : Candidate :=
  ⟨"Eve", "Explore", simpleScores⟩

def oneScoreCand : Candidate :=
  ⟨"Solo", "Apply", fun comp => if comp == "Leads People" then some 18 else none⟩

def repos0 : List (String × DataFrame) :=
  [("Apply", sampleRepo)]

def rnd0 : ℕ → ℕ := fun _ => 0

def witnessCands : List Candidate :=
  [johnCand, exploreCand, oneScoreCand]

/-- Record produced for `johnCand` when every random draw is 0. -/
def johnRecord : PlanRecord :=
  ⟨"John Doe", "Apply", "Leads People", "A", "X", "Manages Stakeholders", "C", "Z"⟩

def warns0 : List String :=
  [skipLevelWarning exploreCand, skipScoresWarning oneScoreCand]

/-- Table whose only row has the blank (whitespace) competency name " ". -/
def blankRowTable : DataFrame :=
  ⟨["Competency Name", "70% Development Tips", "20% Development Tips"],
   [[some " ", some "SPURIOUS70", some "SPURIOUS20"]]⟩

/-- Table whose competency-name header carries surrounding whitespace. -/
def paddedHeaderTable : DataFrame :=
  ⟨[" Competency Name ", "70% Development Tips", "20% Development Tips"],
   [[some "Leads People", some "A", some "X"]]⟩

/-- Table identical to `paddedHeaderTable` except for exact headers. -/
def exactHeaderTable : DataFrame :=
  ⟨["Competency Name", "70% Development Tips", "20% Development Tips"],
   [[some "Leads People", some "A", some "X"]]⟩

/-- Table where the queried competency has 70% tips but no 20% tips. -/
def only70Table : DataFrame :=
  ⟨["Competency Name", "70% Development Tips", "20% Development Tips"],
   [[some "Leads People", some "A", none],
    [some "Leads People", some "B", none]]⟩

/-- Table with two matching rows, giving two-element candidate pools. -/
def twoRowTable : DataFrame :=
  ⟨["Competency Name", "70% Development Tips", "20% Development Tips"],
   [[some "Leads People", some "A", some "X"],
    [some "Leads People", some "B", some "Y"]]⟩

/-- Table whose first row has an undefined (NaN) competency name. -/
def nanRowTable : DataFrame :=
  ⟨["Competency Name", "70% Development Tips", "20% Development Tips"],
   [[none, some "T", some "U"],
    [some "Leads People", some "A", some "X"]]⟩

/-- Result of dropping the NaN-named row of `nanRowTable`. -/
def droppedNanTable : DataFrame :=
  ⟨["Competency Name", "70% Development Tips", "20% Development Tips"],
   [[some "Leads People", some "A", some "X"]]⟩

/- ----------------------------------------------------------------- -/
/- Helper lemmas about the ranker.                                   -/
/- ----------------------------------------------------------------- -/

theorem definedScores_map_fst_sublist (row : String → Option ℚ) :
    ∀ comps : List String, ((definedScores row comps).map Prod.fst).Sublist comps := by
  intro comps
  induction comps with
  | nil => simp [definedScores]
  | cons c cs ih =>
    cases hv : row c with
    | none =>
      simp only [definedScores, List.filterMap_cons, hv, Option.map_none]
      exact (ih).cons c
    | some v =>
      simp only [definedScores, List.filterMap_cons, hv, Option.map_some, List.map_cons]
      exact (ih).cons₂ c

theorem mem_definedScores {row : String → Option ℚ} {comps : List String}
    {p : String × ℚ} :
    p ∈ definedScores row comps ↔ p.1 ∈ comps ∧ row p.1 = some p.2 := by
  constructor
  · intro hp
    obtain ⟨c, hc, hfc⟩ := List.mem_filterMap.mp hp
    cases hrc : row c with
    | none => rw [hrc] at hfc; simp at hfc
    | some v =>
      rw [hrc] at hfc
      simp only [Option.map_some', Option.some.injEq] at hfc
      rw [← hfc]
      exact ⟨hc, hrc⟩
  · intro ⟨hc, hv⟩
    exact List.mem_filterMap.mpr ⟨p.1, hc, by simp [hv]⟩

theorem find_lowest_snd_none {row : String → Option ℚ} {comps : List String}
    (hlen : (definedScores row comps).length < 2) :
    (find_lowest_competencies row comps).2 = none := by
  simp only [find_lowest_competencies]
  have hle : (List.insertionSort scoreLE (definedScores row comps)).length ≤ 1 := by
    rw [List.length_insertionSort]; omega
  rw [List.getElem?_eq_none hle]
  rfl

theorem find_lowest_fst_none {row : String → Option ℚ} {comps : List String}
    (hlen : (definedScores row comps).length = 0) :
    (find_lowest_competencies row comps).1 = none := by
  simp only [find_lowest_competencies]
  have hle : (List.insertionSort scoreLE (definedScores row comps)).length ≤ 0 := by
    rw [List.length_insertionSort]; omega
  rw [List.getElem?_eq_none hle]
  rfl

theorem two_le_of_snd_not_falsy {row : String → Option ℚ} {comps : List String}
    (h : isFalsy (find_lowest_competencies row comps).2 = false) :
    2 ≤ (definedScores row comps).length := by
  by_contra hlt
  push_neg at hlt
  rw [find_lowest_snd_none hlt] at h
  simp [isFalsy] at h

theorem slot_defined {row : String → Option ℚ} {comps : List String} {i : ℕ} {c : String}
    (h : ((List.insertionSort scoreLE (definedScores row comps))[i]?).map Prod.fst = some c) :
    ∃ v, row c = some v := by
  cases hE : (List.insertionSort scoreLE (definedScores row comps))[i]? with
  | none => rw [hE] at h; simp at h
  | some p =>
    rw [hE] at h
    simp only [Option.map_some', Option.some.injEq] at h
    have hp : p ∈ definedScores row comps :=
      (List.perm_insertionSort scoreLE _).mem_iff.mp (List.getElem?_mem hE)
    obtain ⟨_, hv⟩ := mem_definedScores.mp hp
    exact ⟨p.2, by rw [← h]; exact hv⟩

/- ----------------------------------------------------------------- -/
/- Stability of the sort with respect to the enumeration order.      -/
/- ----------------------------------------------------------------- -/

theorem enumFrom_fst_le {α : Type _} :
    ∀ (l : List α) (n : ℕ) (p : ℕ × α), p ∈ List.enumFrom n l → n ≤ p.1 := by
  intro l
  induction l with
  | nil => intro n p hp; simp [List.enumFrom] at hp
  | cons a l ih =>
    intro n p hp
    simp only [List.enumFrom, List.mem_cons] at hp
    rcases hp with rfl | hp
    · exact le_refl n
    · exact le_trans (Nat.le_succ n) (ih (n + 1) p hp)

theorem enumFrom_fst_pairwise {α : Type _} :
    ∀ (l : List α) (n : ℕ), (List.enumFrom n l).Pairwise (fun a b => a.1 < b.1) := by
  intro l
  induction l with
  | nil => intro n; simp [List.enumFrom]
  | cons a l ih =>
    intro n
    simp only [List.enumFrom]
    refine List.Pairwise.cons ?_ (ih (n + 1))
    intro p hp
    exact lt_of_lt_of_le (Nat.lt_succ_self n) (enumFrom_fst_le l (n + 1) p hp)

theorem orderedInsert_snd_comm (x : ℕ × (String × ℚ)) :
    ∀ ys : List (ℕ × (String × ℚ)), (∀ y ∈ ys, x.1 < y.1) →
      (List.orderedInsert rankKeyLE x ys).map Prod.snd =
        List.orderedInsert scoreLE x.2 (ys.map Prod.snd) := by
  intro ys
  induction ys with
  | nil => intro _; rfl
  | cons y ys ih =>
    intro hlt
    have hxy : x.1 < y.1 := hlt y (by simp)
    by_cases h : scoreLE x.2 y.2
    · have hrk : rankKeyLE x y := by
        rcases lt_or_eq_of_le h with h1 | h1
        · exact Or.inl h1
        · exact Or.inr ⟨h1, le_of_lt hxy⟩
      simp only [List.orderedInsert, List.map_cons]
      rw [if_pos hrk, if_pos h]
      simp
    · have hrk : ¬ rankKeyLE x y := by
        intro hc
        rcases hc with h1 | h1
        · exact h (le_of_lt h1)
        · exact h (le_of_eq h1.1)
      simp only [List.orderedInsert, List.map_cons]
      rw [if_neg hrk, if_neg h]
      simp only [List.map_cons]
      rw [ih (fun z hz => hlt z (by simp [hz]))]

theorem insertionSort_snd_comm :
    ∀ l : List (ℕ × (String × ℚ)), l.Pairwise (fun a b => a.1 < b.1) →
      (List.insertionSort rankKeyLE l).map Prod.snd =
        List.insertionSort scoreLE (l.map Prod.snd) := by
  intro l
  induction l with
  | nil => intro _; rfl
  | cons x xs ih =>
    intro hpw
    rw [List.pairwise_cons] at hpw
    simp only [List.insertionSort, List.map_cons]
    have hlt : ∀ y ∈ List.insertionSort rankKeyLE xs, x.1 < y.1 := fun y hy =>
      hpw.1 y (((List.perm_insertionSort rankKeyLE xs).mem_iff).mp hy)
    rw [orderedInsert_snd_comm x _ hlt, ih hpw.2]

/- ----------------------------------------------------------------- -/
/- Claims about the ranker.                                          -/
/- ----------------------------------------------------------------- -/

/-- C1: for every candidate score mapping in which at least two competencies of
a duplicate-free competency set have defined scores,
`find_lowest_competencies` returns exactly two distinct competency names, and
the (defined) score of the first is less than or equal to the score of the
second. -/
theorem find_lowest_two_defined (row : String → Option ℚ) (comps : List String)
    (hnd : comps.Nodup) (h2 : 2 ≤ (definedScores row comps).length) :
    ∃ c1 c2 s1 s2,
      find_lowest_competencies row comps = (some c1, some c2) ∧
      c1 ≠ c2 ∧ row c1 = some s1 ∧ row c2 = some s2 ∧ s1 ≤ s2 := by
  have hperm := List.perm_insertionSort scoreLE (definedScores row comps)
  have hsorted := List.sorted_insertionSort scoreLE (definedScores row comps)
  have hlen : 2 ≤ (List.insertionSort scoreLE (definedScores row comps)).length := by
    rw [List.length_insertionSort]; exact h2
  obtain ⟨a, b, t, hLt⟩ : ∃ a b t,
      List.insertionSort scoreLE (definedScores row comps) = a :: b :: t := by
    rcases hE : List.insertionSort scoreLE (definedScores row comps) with _ | ⟨a, L1⟩
    · rw [hE] at hlen; simp at hlen
    · rcases L1 with _ | ⟨b, t⟩
      · rw [hE] at hlen; simp at hlen
      · exact ⟨a, b, t, rfl⟩
  refine ⟨a.1, b.1, a.2, b.2, ?_, ?_, ?_, ?_, ?_⟩
  · simp [find_lowest_competencies, hLt]
  · have hnd2 : ((definedScores row comps).map Prod.fst).Nodup :=
      (definedScores_map_fst_sublist row comps).nodup hnd
    have hnd3 : ((a :: b :: t).map Prod.fst).Nodup := by
      rw [← hLt]
      exact ((hperm.map Prod.fst).nodup_iff).mpr hnd2
    simp only [List.map_cons, List.nodup_cons, List.mem_cons] at hnd3
    intro hab
    exact hnd3.1 (Or.inl hab)
  · have ha : a ∈ definedScores row comps := hperm.mem_iff.mp (by rw [hLt]; simp)
    exact (mem_definedScores.mp ha).2
  · have hb : b ∈ definedScores row comps := hperm.mem_iff.mp (by rw [hLt]; simp)
    exact (mem_definedScores.mp hb).2
  · rw [hLt] at hsorted
    exact (List.sorted_cons.mp hsorted).1 b (by simp)

/-- C1 witness: the sample candidate John Doe against the fixed competency
set. -/
theorem find_lowest_two_defined_witness :
    COMPETENCIES.Nodup ∧ 2 ≤ (definedScores johnScores COMPETENCIES).length ∧
    ∃ c1 c2 s1 s2,
      find_lowest_competencies johnScores COMPETENCIES = (some c1, some c2) ∧
      c1 ≠ c2 ∧ johnScores c1 = some s1 ∧ johnScores c2 = some s2 ∧ s1 ≤ s2 :=
  ⟨by decide, by decide,
   find_lowest_two_defined johnScores COMPETENCIES (by decide) (by decide)⟩

/-- C6: the result of the ranker equals the first two entries of the stable
ascending sort of the defined (competency, score) pairs, ties broken by the
original enumeration order (sorting by the lexicographic key (score,
enumeration index)). -/
theorem find_lowest_eq_specStableRank (row : String → Option ℚ) (comps : List String) :
    find_lowest_competencies row comps = specStableRank row comps := by
  have hpw : ((definedScores row comps).enum).Pairwise (fun a b => a.1 < b.1) :=
    enumFrom_fst_pairwise (definedScores row comps) 0
  simp only [find_lowest_competencies, specStableRank,
    insertionSort_snd_comm _ hpw, List.enum_map_snd]

/- ----------------------------------------------------------------- -/
/- Helper lemmas about the tip selector.                             -/
/- ----------------------------------------------------------------- -/

theorem indexOfName_of_mem {name : String} :
    ∀ {l : List String}, name ∈ l → ∃ i, indexOfName name l = some i := by
  intro l
  induction l with
  | nil => intro h; simp at h
  | cons x xs ih =>
    intro hm
    by_cases he : x == name
    · exact ⟨0, by simp [indexOfName, he]⟩
    · have hx : name ∈ xs := by
        rcases List.mem_cons.mp hm with rfl | hmem
        · simp at he
        · exact hmem
      obtain ⟨i, hi⟩ := ih hx
      exact ⟨i + 1, by simp [indexOfName, he, hi]⟩

theorem indexOfName_of_not_mem {name : String} :
    ∀ {l : List String}, name ∉ l → indexOfName name l = none := by
  intro l
  induction l with
  | nil => intro _; rfl
  | cons x xs ih =>
    intro hm
    have hx : ¬(x == name) := by
      intro he
      exact hm (by simp [List.mem_cons, (eq_of_beq he).symm])
    simp [indexOfName, hx, ih (fun hmem => hm (List.mem_cons.mpr (Or.inr hmem)))]

theorem pickTip_nil (r : ℕ) : pickTip [] r = "N/A" := rfl

theorem pickTip_mem (tips : List String) (r : ℕ) (h : tips ≠ []) :
    pickTip tips r ∈ tips := by
  match tips with
  | t :: ts =>
    simp only [pickTip]
    have hlt : r % (t :: ts).length < (t :: ts).length :=
      Nat.mod_lt _ (by simp)
    rw [List.getD_eq_getElem?_getD, List.getElem?_eq_getElem hlt]
    simp only [Option.getD_some]
    exact List.getElem_mem hlt

/- ----------------------------------------------------------------- -/
/- Claims about the tip selector.                                    -/
/- ----------------------------------------------------------------- -/

/-- C3: two target competency names that agree after trimming and lowercasing
select exactly the same candidate tip pools (and the same mutated table) from
any tip table. -/
theorem tipCandidates_normalize_invariant (df : DataFrame) (q1 q2 : String)
    (h : normalize q1 = normalize q2) :
    tipCandidates df q1 = tipCandidates df q2 := by
  simp only [tipCandidates, h]

/-- C3 witness: the example strings of the spec against a concrete table. -/
theorem tipCandidates_normalize_invariant_witness :
    normalize "Leads People" = normalize " leads people " ∧
    tipCandidates sampleRepo "Leads People" = tipCandidates sampleRepo " leads people " :=
  ⟨by decide, tipCandidates_normalize_invariant sampleRepo "Leads People" " leads people "
    (by decide)⟩

/-- C4 counterexample: on a table that lacks the expected columns the selector
does not return a pair at all, it raises a KeyError, so the claim as stated
over every input table is false. -/
theorem get_random_tips_keyerror_counterexample :
    get_random_tips ⟨[], []⟩ "Leads People" 0 0 = .error "KeyError: Competency Name" :=
  rfl

/-- C4 (amended): for every input table that has the three expected columns,
`get_random_tips` returns a defined (tip-70, tip-20) pair and never an error;
when the gathered candidate list of a tier is empty, the value of that tier is the
sentinel "N/A", and when it is non-empty the value is a member of the list. -/
theorem get_random_tips_total_on_wellformed (df : DataFrame) (q : String) (r70 r20 : ℕ)
    (h1 : "Competency Name" ∈ df.headers)
    (h2 : "70% Development Tips" ∈ df.headers)
    (h3 : "20% Development Tips" ∈ df.headers) :
    ∃ df2 p70 p20,
      tipCandidates df q = .ok (df2, p70, p20) ∧
      get_random_tips df q r70 r20 = .ok (df2, pickTip p70 r70, pickTip p20 r20) ∧
      (p70 = [] → pickTip p70 r70 = "N/A") ∧ (p70 ≠ [] → pickTip p70 r70 ∈ p70) ∧
      (p20 = [] → pickTip p20 r20 = "N/A") ∧ (p20 ≠ [] → pickTip p20 r20 ∈ p20) := by
  obtain ⟨ci, hci⟩ := indexOfName_of_mem h1
  obtain ⟨i70, hi70⟩ := indexOfName_of_mem h2
  obtain ⟨i20, hi20⟩ := indexOfName_of_mem h3
  cases hc : tipCandidates df q with
  | error e =>
    simp only [tipCandidates, DataFrame.dropnaSubset, hci, hi70, hi20] at hc
    exact Except.noConfusion hc
  | ok val =>
    obtain ⟨df2, p70, p20⟩ := val
    refine ⟨df2, p70, p20, rfl, ?_, ?_, ?_, ?_, ?_⟩
    · simp only [get_random_tips, hc]
    · intro h; rw [h]; rfl
    · intro h; exact pickTip_mem _ _ h
    · intro h; rw [h]; rfl
    · intro h; exact pickTip_mem _ _ h

/-- C4 witness: a competency with only 70% tips defined gets a real 70% tip
and the "N/A" sentinel for the 20% tier. -/
theorem get_random_tips_total_on_wellformed_witness :
    ("Competency Name" ∈ only70Table.headers ∧
     "70% Development Tips" ∈ only70Table.headers ∧
     "20% Development Tips" ∈ only70Table.headers) ∧
    ∃ df2 p70 p20,
      tipCandidates only70Table "Leads People" = .ok (df2, p70, p20) ∧
      get_random_tips only70Table "Leads People" 1 1 =
        .ok (df2, pickTip p70 1, pickTip p20 1) ∧
      (p70 = [] → pickTip p70 1 = "N/A") ∧ (p70 ≠ [] → pickTip p70 1 ∈ p70) ∧
      (p20 = [] → pickTip p20 1 = "N/A") ∧ (p20 ≠ [] → pickTip p20 1 ∈ p20) :=
  ⟨⟨by decide, by decide, by decide⟩,
   get_random_tips_total_on_wellformed only70Table "Leads People" 1 1
     (by decide) (by decide) (by decide)⟩

/-- C5 counterexample: a repository row whose competency name is the blank
string " " survives the NaN-dropping step and matches an all-whitespace
query, so its tips are gathered into both candidate lists: blank-named rows
can participate in matching for such queries. -/
theorem blank_row_spurious_match_counterexample :
    blankRowTable.rows = [[some " ", some "SPURIOUS70", some "SPURIOUS20"]] ∧
    normalize " " = "" ∧
    tipCandidates blankRowTable "  " =
      .ok (blankRowTable, ["SPURIOUS70"], ["SPURIOUS20"]) :=
  ⟨rfl, rfl, rfl⟩

/-- C5 (amended): rows with an undefined competency name never participate for
any query, and every tip gathered into either candidate list comes from a row
whose competency name is defined and normalizes to the normalized query; hence
for every query whose trimmed name is non-blank, no blank-named row
contributes. -/
theorem tip_pool_provenance (df : DataFrame) (q : String)
    (df2 : DataFrame) (p70 p20 : List String)
    (h : tipCandidates df q = .ok (df2, p70, p20)) :
    ∃ ci i70 i20,
      indexOfName "Competency Name" df.headers = some ci ∧
      indexOfName "70% Development Tips" df.headers = some i70 ∧
      indexOfName "20% Development Tips" df.headers = some i20 ∧
      (∀ t ∈ p70, ∃ r ∈ df.rows, ∃ v, getCell r ci = some v ∧
        normalize v = normalize q ∧ getCell r i70 = some t) ∧
      (∀ t ∈ p20, ∃ r ∈ df.rows, ∃ v, getCell r ci = some v ∧
        normalize v = normalize q ∧ getCell r i20 = some t) := by
  simp only [tipCandidates, DataFrame.dropnaSubset] at h
  cases hci : indexOfName "Competency Name" df.headers with
  | none => rw [hci] at h; simp at h
  | some ci =>
    rw [hci] at h
    simp only at h
    cases hi70 : indexOfName "70% Development Tips" df.headers with
    | none => rw [hi70] at h; simp at h
    | some i70 =>
      rw [hi70] at h
      simp only at h
      cases hi20 : indexOfName "20% Development Tips" df.headers with
      | none => rw [hi20] at h; simp at h
      | some i20 =>
        rw [hi20] at h
        simp only [Except.ok.injEq, Prod.mk.injEq] at h
        obtain ⟨-, h70, h20⟩ := h
        refine ⟨ci, i70, i20, rfl, rfl, rfl, ?_, ?_⟩
        · intro t ht
          rw [← h70] at ht
          obtain ⟨r, hr, hrt⟩ := List.mem_filterMap.mp ht
          have hr2 := List.mem_filter.mp hr
          obtain ⟨hrrows, hpred⟩ := hr2
          have hrdf : r ∈ df.rows := (List.mem_filter.mp hrrows).1
          cases hcv : getCell r ci with
          | none => rw [hcv] at hpred; simp at hpred
          | some v =>
            rw [hcv] at hpred
            simp only [beq_iff_eq] at hpred
            exact ⟨r, hrdf, v, hcv, hpred, hrt⟩
        · intro t ht
          rw [← h20] at ht
          obtain ⟨r, hr, hrt⟩ := List.mem_filterMap.mp ht
          have hr2 := List.mem_filter.mp hr
          obtain ⟨hrrows, hpred⟩ := hr2
          have hrdf : r ∈ df.rows := (List.mem_filter.mp hrrows).1
          cases hcv : getCell r ci with
          | none => rw [hcv] at hpred; simp at hpred
          | some v =>
            rw [hcv] at hpred
            simp only [beq_iff_eq] at hpred
            exact ⟨r, hrdf, v, hcv, hpred, hrt⟩

/-- C5 witness: provenance of the pools gathered from `sampleRepo`. -/
theorem tip_pool_provenance_witness :
    ∃ ci i70 i20,
      indexOfName "Competency Name" sampleRepo.headers = some ci ∧
      indexOfName "70% Development Tips" sampleRepo.headers = some i70 ∧
      indexOfName "20% Development Tips" sampleRepo.headers = some i20 ∧
      (∀ t ∈ ["A"], ∃ r ∈ sampleRepo.rows, ∃ v, getCell r ci = some v ∧
        normalize v = normalize "Leads People" ∧ getCell r i70 = some t) ∧
      (∀ t ∈ ["X"], ∃ r ∈ sampleRepo.rows, ∃ v, getCell r ci = some v ∧
        normalize v = normalize "Leads People" ∧ getCell r i20 = some t) :=
  tip_pool_provenance sampleRepo "Leads People" sampleRepo ["A"] ["X"] rfl

/-- C8: whenever `get_random_tips` succeeds, each returned tip is a member of
the corresponding gathered candidate list when that list is non-empty, and the
sentinel otherwise. -/
theorem get_random_tips_member_of_pools (df : DataFrame) (q : String) (r70 r20 : ℕ)
    (df2 : DataFrame) (t70 t20 : String)
    (h : get_random_tips df q r70 r20 = .ok (df2, t70, t20)) :
    ∃ p70 p20, tipCandidates df q = .ok (df2, p70, p20) ∧
      (p70 ≠ [] → t70 ∈ p70) ∧ (p70 = [] → t70 = "N/A") ∧
      (p20 ≠ [] → t20 ∈ p20) ∧ (p20 = [] → t20 = "N/A") := by
  simp only [get_random_tips] at h
  cases hc : tipCandidates df q with
  | error e => rw [hc] at h; simp at h
  | ok val =>
    obtain ⟨d, p70, p20⟩ := val
    rw [hc] at h
    simp only [Except.ok.injEq, Prod.mk.injEq] at h
    obtain ⟨rfl, rfl, rfl⟩ := h
    refine ⟨p70, p20, rfl, ?_, ?_, ?_, ?_⟩
    · intro hne; exact pickTip_mem _ _ hne
    · intro hnil; rw [hnil]; rfl
    · intro hne; exact pickTip_mem _ _ hne
    · intro hnil; rw [hnil]; rfl

/-- C8 witness: the two-row table gives the pools removed from the scenario,
and the returned tips are members of them. -/
theorem get_random_tips_member_of_pools_witness :
    ∃ p70 p20, tipCandidates twoRowTable "Leads People" = .ok (twoRowTable, p70, p20) ∧
      (p70 ≠ [] → "A" ∈ p70) ∧ (p70 = [] → "A" = "N/A") ∧
      (p20 ≠ [] → "Y" ∈ p20) ∧ (p20 = [] → "Y" = "N/A") :=
  get_random_tips_member_of_pools twoRowTable "Leads People" 0 1 twoRowTable "A" "Y" rfl

/-- C9 counterexample: two tables that differ only by surrounding whitespace
in the competency-name header are not matched alike: the padded one raises a
KeyError while the exact one succeeds, so headers are not normalized before
lookup. -/
theorem padded_header_counterexample :
    paddedHeaderTable.headers.map pyStrip = exactHeaderTable.headers.map pyStrip ∧
    paddedHeaderTable.rows = exactHeaderTable.rows ∧
    get_random_tips paddedHeaderTable "Leads People" 0 0 =
      .error "KeyError: Competency Name" ∧
    get_random_tips exactHeaderTable "Leads People" 0 0 =
      .ok (exactHeaderTable, "A", "X") :=
  ⟨rfl, rfl, rfl, rfl⟩

/-- C9 (amended): column headers are looked up by their exact text, with no
whitespace normalization: whenever the exact header "Competency Name" is
absent (for instance because the header carries surrounding whitespace), the
selector fails with a KeyError instead of matching. -/
theorem headers_not_normalized (df : DataFrame) (q : String) (r70 r20 : ℕ)
    (h : "Competency Name" ∉ df.headers) :
    get_random_tips df q r70 r20 = .error "KeyError: Competency Name" := by
  simp only [get_random_tips, tipCandidates, DataFrame.dropnaSubset,
    indexOfName_of_not_mem h]
  rfl

/-- C9 witness: the padded-header table. -/
theorem headers_not_normalized_witness :
    "Competency Name" ∉ paddedHeaderTable.headers ∧
    get_random_tips paddedHeaderTable "x" 3 4 = .error "KeyError: Competency Name" :=
  ⟨by decide, headers_not_normalized paddedHeaderTable "x" 3 4 (by decide)⟩

/- ----------------------------------------------------------------- -/
/- Soundness of the per-candidate loop.                              -/
/- ----------------------------------------------------------------- -/

theorem processCandidates_sound (rnd : ℕ → ℕ) (repos : List (String × DataFrame)) :
    ∀ (cands : List Candidate) (k : ℕ) (repos2 : List (String × DataFrame))
      (recs : List PlanRecord) (warns : List String),
      processCandidates rnd repos k cands = .ok (repos2, recs, warns) →
      repos2 = repos ∧
      (∀ rec ∈ recs, ∃ c ∈ cands, rec.candidateName = c.name ∧ rec.level = c.level ∧
        (lookupRepo repos c.level).isSome ∧
        2 ≤ (definedScores c.scores COMPETENCIES).length) ∧
      (∀ c ∈ cands, lookupRepo repos c.level = none → skipLevelWarning c ∈ warns) ∧
      (∀ c ∈ cands, (lookupRepo repos c.level).isSome →
        (definedScores c.scores COMPETENCIES).length < 2 → skipScoresWarning c ∈ warns) := by
  intro cands
  induction cands with
  | nil =>
    intro k repos2 recs warns h
    simp only [processCandidates, Except.ok.injEq, Prod.mk.injEq] at h
    obtain ⟨h1, h2, h3⟩ := h
    subst h2; subst h3
    exact ⟨h1.symm, by simp, by simp, by simp⟩
  | cons c cs ih =>
    intro k repos2 recs warns h
    simp only [processCandidates] at h
    split at h
    · -- level of `c` not found in the repositories
      rename_i hlev
      split at h
      · exact absurd h (by simp)
      · rename_i repos3 recs3 warns3 hrec
        simp only [Except.ok.injEq, Prod.mk.injEq] at h
        obtain ⟨h1, h2, h3⟩ := h
        subst h1; subst h2; subst h3
        obtain ⟨ih1, ih2, ih3, ih4⟩ := ih k _ _ _ hrec
        refine ⟨ih1, ?_, ?_, ?_⟩
        · intro rec hrm
          obtain ⟨c2, hc2, hrest⟩ := ih2 rec hrm
          exact ⟨c2, List.mem_cons.mpr (Or.inr hc2), hrest⟩
        · intro c2 hc2 hnone
          rcases List.mem_cons.mp hc2 with rfl | hmem
          · exact List.mem_cons_self _ _
          · exact List.mem_cons.mpr (Or.inr (ih3 c2 hmem hnone))
        · intro c2 hc2 hsome hlt
          rcases List.mem_cons.mp hc2 with rfl | hmem
          · rw [hlev] at hsome; simp at hsome
          · exact List.mem_cons.mpr (Or.inr (ih4 c2 hmem hsome hlt))
    · -- level found
      rename_i repo_df hlev
      split at h
      · -- fewer than two determined lowest competencies: skip
        rename_i hfal
        split at h
        · exact absurd h (by simp)
        · rename_i repos3 recs3 warns3 hrec
          simp only [Except.ok.injEq, Prod.mk.injEq] at h
          obtain ⟨h1, h2, h3⟩ := h
          subst h1; subst h2; subst h3
          obtain ⟨ih1, ih2, ih3, ih4⟩ := ih k _ _ _ hrec
          refine ⟨ih1, ?_, ?_, ?_⟩
          · intro rec hrm
            obtain ⟨c2, hc2, hrest⟩ := ih2 rec hrm
            exact ⟨c2, List.mem_cons.mpr (Or.inr hc2), hrest⟩
          · intro c2 hc2 hnone
            rcases List.mem_cons.mp hc2 with rfl | hmem
            · rw [hlev] at hnone; simp at hnone
            · exact List.mem_cons.mpr (Or.inr (ih3 c2 hmem hnone))
          · intro c2 hc2 hsome hlt
            rcases List.mem_cons.mp hc2 with rfl | hmem
            · exact List.mem_cons_self _ _
            · exact List.mem_cons.mpr (Or.inr (ih4 c2 hmem hsome hlt))
      · -- candidate fully processed
        rename_i hfal
        rw [Bool.or_eq_true, not_or] at hfal
        obtain ⟨hfal1, hfal2⟩ := hfal
        have h2le : 2 ≤ (definedScores c.scores COMPETENCIES).length :=
          two_le_of_snd_not_falsy (Bool.not_eq_true _ ▸ Bool.of_not_eq_true hfal2)
        split at h
        · exact absurd h (by simp)
        · rename_i df1 tips1 hg1
          split at h
          · exact absurd h (by simp)
          · rename_i df2x tips2 hg2
            split at h
            · exact absurd h (by simp)
            · rename_i repos3 recs3 warns3 hrec
              simp only [Except.ok.injEq, Prod.mk.injEq] at h
              obtain ⟨h1, h2, h3⟩ := h
              subst h1; subst h2; subst h3
              obtain ⟨ih1, ih2, ih3, ih4⟩ := ih (k + 4) _ _ _ hrec
              refine ⟨ih1, ?_, ?_, ?_⟩
              · intro rec hrm
                rcases List.mem_cons.mp hrm with rfl | hmem
                · refine ⟨c, List.mem_cons_self _ _, rfl, rfl, ?_, h2le⟩
                  rw [hlev]; rfl
                · obtain ⟨c2, hc2, hrest⟩ := ih2 rec hmem
                  exact ⟨c2, List.mem_cons.mpr (Or.inr hc2), hrest⟩
              · intro c2 hc2 hnone
                rcases List.mem_cons.mp hc2 with rfl | hmem
                · rw [hlev] at hnone; simp at hnone
                · exact ih3 c2 hmem hnone
              · intro c2 hc2 hsome hlt
                rcases List.mem_cons.mp hc2 with rfl | hmem
                · omega
                · exact ih4 c2 hmem hsome hlt

/-- C2: a Development Plan Record is appended only for candidates whose level
is a known repository scope and who have at least two defined scores; a
candidate failing either condition gets the corresponding warning while the
rest of the list is still processed (records and warnings of every other
candidate are produced as usual). -/
theorem record_only_for_qualified (rnd : ℕ → ℕ) (repos : List (String × DataFrame))
    (k : ℕ) (cands : List Candidate) (repos2 : List (String × DataFrame))
    (recs : List PlanRecord) (warns : List String)
    (h : processCandidates rnd repos k cands = .ok (repos2, recs, warns)) :
    (∀ rec ∈ recs, ∃ c ∈ cands, rec.candidateName = c.name ∧ rec.level = c.level ∧
      (lookupRepo repos c.level).isSome ∧
      2 ≤ (definedScores c.scores COMPETENCIES).length) ∧
    (∀ c ∈ cands, lookupRepo repos c.level = none → skipLevelWarning c ∈ warns) ∧
    (∀ c ∈ cands, (lookupRepo repos c.level).isSome →
      (definedScores c.scores COMPETENCIES).length < 2 → skipScoresWarning c ∈ warns) :=
  (processCandidates_sound rnd repos cands k repos2 recs warns h).2

/-- C2 witness: one qualified candidate, one with an unknown level "Explore",
one with a single defined score. -/
theorem record_only_for_qualified_witness :
    (∀ rec ∈ [johnRecord], ∃ c ∈ witnessCands, rec.candidateName = c.name ∧
      rec.level = c.level ∧ (lookupRepo repos0 c.level).isSome ∧
      2 ≤ (definedScores c.scores COMPETENCIES).length) ∧
    (∀ c ∈ witnessCands, lookupRepo repos0 c.level = none → skipLevelWarning c ∈ warns0) ∧
    (∀ c ∈ witnessCands, (lookupRepo repos0 c.level).isSome →
      (definedScores c.scores COMPETENCIES).length < 2 → skipScoresWarning c ∈ warns0) :=
  record_only_for_qualified rnd0 repos0 0 witnessCands repos0 [johnRecord] warns0 rfl

/-- C7: missing scores are excluded before ranking rather than treated as
zero (a returned competency always has a defined score); with fewer than two
defined scores the missing slot(s) are `none`; and the main loop emits
records only for candidates with at least two defined scores. -/
theorem missing_scores_excluded :
    (∀ (row : String → Option ℚ) (comps : List String) (c : String),
      ((find_lowest_competencies row comps).1 = some c → ∃ v, row c = some v) ∧
      ((find_lowest_competencies row comps).2 = some c → ∃ v, row c = some v)) ∧
    (∀ (row : String → Option ℚ) (comps : List String),
      (definedScores row comps).length < 2 →
        (find_lowest_competencies row comps).2 = none) ∧
    (∀ (row : String → Option ℚ) (comps : List String),
      (definedScores row comps).length = 0 →
        (find_lowest_competencies row comps).1 = none) ∧
    (∀ (rnd : ℕ → ℕ) (repos repos2 : List (String × DataFrame)) (k : ℕ)
      (cands : List Candidate) (recs : List PlanRecord) (warns : List String),
      processCandidates rnd repos k cands = .ok (repos2, recs, warns) →
      ∀ rec ∈ recs, ∃ c ∈ cands, rec.candidateName = c.name ∧
        2 ≤ (definedScores c.scores COMPETENCIES).length) := by
  refine ⟨?_, ?_, ?_, ?_⟩
  · intro row comps c
    constructor
    · intro h
      have h1 : ((List.insertionSort scoreLE (definedScores row comps))[0]?).map
          Prod.fst = some c := by
        simpa [find_lowest_competencies] using h
      exact slot_defined h1
    · intro h
      have h1 : ((List.insertionSort scoreLE (definedScores row comps))[1]?).map
          Prod.fst = some c := by
        simpa [find_lowest_competencies] using h
      exact slot_defined h1
  · intro row comps h
    exact find_lowest_snd_none h
  · intro row comps h
    exact find_lowest_fst_none h
  · intro rnd repos repos2 k cands recs warns h rec hrm
    obtain ⟨-, h2, -, -⟩ := processCandidates_sound rnd repos cands k repos2 recs warns h
    obtain ⟨c, hc, hname, -, -, hlen⟩ := h2 rec hrm
    exact ⟨c, hc, hname, hlen⟩

/-- C7 witness: the single-score candidate gets `none` in the second slot and
the first slot names a competency with a defined score; the loop run emits a
record only for the fully scored candidate. -/
theorem missing_scores_excluded_witness :
    (∃ v, oneScoreCand.scores "Leads People" = some v) ∧
    (find_lowest_competencies oneScoreCand.scores COMPETENCIES).2 = none ∧
    (∀ rec ∈ [johnRecord], ∃ c ∈ witnessCands, rec.candidateName = c.name ∧
      2 ≤ (definedScores c.scores COMPETENCIES).length) :=
  ⟨(missing_scores_excluded.1 oneScoreCand.scores COMPETENCIES "Leads People").1 rfl,
   missing_scores_excluded.2.1 oneScoreCand.scores COMPETENCIES (by decide),
   missing_scores_excluded.2.2.2 rnd0 repos0 repos0 0 witnessCands [johnRecord] warns0 rfl⟩

/-- C10: `get_random_tips` hands back its table with the NaN-named rows
dropped (the in-place mutation), while the per-candidate loop, which works on
a copy, leaves the stored repository mapping unchanged. -/
theorem tips_mutate_copy_frame :
    (∀ (df : DataFrame) (q : String) (r70 r20 : ℕ) (out : DataFrame × String × String),
      get_random_tips df q r70 r20 = .ok out →
      ∃ ci, indexOfName "Competency Name" df.headers = some ci ∧
        out.1 = ⟨df.headers, df.rows.filter (fun r => (getCell r ci).isSome)⟩) ∧
    (∀ (rnd : ℕ → ℕ) (repos repos2 : List (String × DataFrame)) (k : ℕ)
      (cands : List Candidate) (recs : List PlanRecord) (warns : List String),
      processCandidates rnd repos k cands = .ok (repos2, recs, warns) →
      repos2 = repos) := by
  constructor
  · intro df q r70 r20 out h
    simp only [get_random_tips, tipCandidates, DataFrame.dropnaSubset] at h
    cases hci : indexOfName "Competency Name" df.headers with
    | none => rw [hci] at h; exact absurd h (by simp)
    | some ci =>
      rw [hci] at h
      simp only at h
      cases hi70 : indexOfName "70% Development Tips" df.headers with
      | none => rw [hi70] at h; exact absurd h (by simp)
      | some i70 =>
        rw [hi70] at h
        simp only at h
        cases hi20 : indexOfName "20% Development Tips" df.headers with
        | none => rw [hi20] at h; exact absurd h (by simp)
        | some i20 =>
          rw [hi20] at h
          simp only [Except.ok.injEq] at h
          exact ⟨ci, rfl, by rw [← h]⟩
  · intro rnd repos repos2 k cands recs warns h
    exact (processCandidates_sound rnd repos cands k repos2 recs warns h).1

/-- C10 witness: a table with a NaN-named row comes back with that row
dropped, and a concrete loop run returns the repository mapping unchanged. -/
theorem tips_mutate_copy_frame_witness :
    (∃ ci, indexOfName "Competency Name" nanRowTable.headers = some ci ∧
      droppedNanTable = ⟨nanRowTable.headers,
        nanRowTable.rows.filter (fun r => (getCell r ci).isSome)⟩) ∧
    repos0 = repos0 :=
  ⟨tips_mutate_copy_frame.1 nanRowTable "Leads People" 0 0
      (droppedNanTable, "A", "X") rfl,
   tips_mutate_copy_frame.2 rnd0 repos0 repos0 0 witnessCands [johnRecord] warns0 rfl⟩

end App
